import Mathlib

/-!
# MIDIgen: verification of the specification against the code

The repository contains the Next.js client (`src/app/page.tsx`) together with
environment glue (`env.sh`, `requirements.txt`).  The generation backend that
the client calls (`GET /generate-midi?instrument={name}`) is described by the
specification but its code is not part of the repository snapshot, so the
backend components (Instrument Registry, Model Cache, Pattern Generator, MIDI
Encoder) are modelled from the specification's component contracts and then
checked against the specification's claimed properties.

All machine integers are modelled as `Nat`/`Int`; byte buffers are `List Nat`
with each byte reduced modulo 256 at the point where it is written.
-/

namespace MidiGen

/-! ## Client (src/app/page.tsx) -/

/-- The client's instrument list (`VALID_INSTRUMENTS` in `src/app/page.tsx`,
lines 6-9). -/
def VALID_INSTRUMENTS : List String :=
  ["lead", "pluck", "keys", "pad", "drums",
   "kick", "snare", "closed_hat", "open_hat", "clap"]

/-- Modelled from the spec: the fixed instrument set advertised for
`GET /generate-midi?instrument={name}` (spec section 6). -/
def advertisedInstruments : List String :=
  ["lead", "pluck", "keys", "pad", "drums",
   "kick", "snare", "closed_hat", "open_hat", "clap"]

/-- The outcome of the client's `fetch` call, as observed by
`handleGenerateMidi`: a 2xx response with the MIDI bytes, a non-2xx response
whose JSON body may or may not carry a `detail` string field, or a thrown
error (network failure, non-JSON error body, ...) with a message. -/
inductive FetchOutcome where
  | success (bytes : List Nat)
  | failure (status : Nat) (detail : Option String)
  | thrown (message : String)
deriving DecidableEq, Repr

/-- The client state after one invocation of the generate handler finishes:
the `isLoading` flag, the `error` message state, and the name of the file
saved through the temporary download link (if any). -/
structure ClientState where
  isLoading : Bool
  error : Option String
  downloadedFile : Option String
deriving DecidableEq, Repr

/-- JavaScript string truthiness for `a || b`: the empty string is falsy, so
the fallback is used exactly when `a` is empty. -/
def jsOrElse (a b : String) : String := if a = "" then b else a

/-- The message of the error the client throws for a non-ok response:
`errorData.detail || ("HTTP error! Status: " + status)`
(src/app/page.tsx, line 32). -/
def httpFallbackMessage (status : Nat) : String :=
  "HTTP error! Status: " ++ toString status

/-- State transition of `handleGenerateMidi` (src/app/page.tsx, lines 19-58):
`setIsLoading(true); setError(null)`, then the fetch; on success the blob is
saved as `{instrument}_pattern.mid`; on a non-ok response the client throws
`Error(errorData.detail || "HTTP error! Status: ...")`; every thrown error is
caught and `setError(err.message || "An unknown error occurred.")` runs; the
`finally` block runs `setIsLoading(false)`. -/
def handleGenerateMidi (instrument : String) (outcome : FetchOutcome) :
    ClientState :=
  match outcome with
  | .success _ =>
      { isLoading := false, error := none,
        downloadedFile := some (instrument ++ "_pattern.mid") }
  | .failure status detail =>
      let thrownMsg :=
        match detail with
        | some d => jsOrElse d (httpFallbackMessage status)
        | none => httpFallbackMessage status
      { isLoading := false,
        error := some (jsOrElse thrownMsg "An unknown error occurred."),
        downloadedFile := none }
  | .thrown msg =>
      { isLoading := false,
        error := some (jsOrElse msg "An unknown error occurred."),
        downloadedFile := none }

/-! ## Error taxonomy (spec section 7) -/

/-- Modelled from the spec: the backend error taxonomy of section 7. -/
inductive GenError where
  | unknownInstrument (name : String)
  | modelLoadError (cause : String)
  | generationError
  | encodingError
deriving DecidableEq, Repr

/-! ## Instrument Registry (spec section 4.1) -/

/-- Modelled from the spec: `InstrumentProfile` (spec section 3), the static
configuration bundle for a named instrument role. -/
structure InstrumentProfile where
  name : String
  model_id : String
  decoding_params : List (String × Nat)
  midi_program : Nat
  channel : Nat
  default_length_steps : Nat
  tempo_bpm : Nat
deriving DecidableEq, Repr

/-- Modelled from the spec: the static registry table mapping each advertised
instrument name to its profile (spec sections 2 and 4.1; the concrete
program/channel numbers are representative General-MIDI choices, with the
drum-kit roles on channel 9). -/
def registryTable : List (String × InstrumentProfile) :=
  [("lead",       ⟨"lead", "melody_vae", [("temperature", 1)], 81, 0, 16, 120⟩),
   ("pluck",      ⟨"pluck", "melody_vae", [("temperature", 1)], 104, 1, 16, 120⟩),
   ("keys",       ⟨"keys", "melody_vae", [("temperature", 1)], 0, 2, 16, 120⟩),
   ("pad",        ⟨"pad", "melody_vae", [("temperature", 1)], 88, 3, 16, 120⟩),
   ("drums",      ⟨"drums", "drums_vae", [("temperature", 1)], 0, 9, 16, 120⟩),
   ("kick",       ⟨"kick", "drums_vae", [("temperature", 1)], 0, 9, 16, 120⟩),
   ("snare",      ⟨"snare", "drums_vae", [("temperature", 1)], 0, 9, 16, 120⟩),
   ("closed_hat", ⟨"closed_hat", "drums_vae", [("temperature", 1)], 0, 9, 16, 120⟩),
   ("open_hat",   ⟨"open_hat", "drums_vae", [("temperature", 1)], 0, 9, 16, 120⟩),
   ("clap",       ⟨"clap", "drums_vae", [("temperature", 1)], 0, 9, 16, 120⟩)]

/-- Modelled from the spec: `resolve(name) → InstrumentProfile` or
`UnknownInstrument` when the name is not a recognized key (spec section 4.1);
case-sensitive exact match against the read-only static table. -/
def resolve (name : String) : Except GenError InstrumentProfile :=
  match registryTable.lookup name with
  | some p => .ok p
  | none => .error (.unknownInstrument name)

/-! ## Notes and the Pattern Generator (spec sections 3 and 4.3) -/

/-- Ticks per quarter note declared in the MIDI header (`division`). -/
def division : Nat := 480

/-- Ticks per step of the generation grid (a sixteenth-note grid). -/
def stepTicks : Nat := 120

/-- Modelled from the spec: a raw note as decoded by the generative model,
before post-processing; the model may emit pitches, velocities and timings
outside the desired bounds (spec section 4.3, step 2), hence `Int` fields.
Times are in ticks. -/
structure RawNote where
  pitch : Int
  velocity : Int
  start_time : Int
  end_time : Int
deriving DecidableEq, Repr

/-- Modelled from the spec: a note of a `NoteSequence` after post-processing
(spec section 3); times are in ticks of the encoder's time division. -/
structure Note where
  pitch : Nat
  velocity : Nat
  start_time : Nat
  end_time : Nat
deriving DecidableEq, Repr

/-- Modelled from the spec: `NoteSequence` (spec section 3): ordered notes
plus tempo and total duration (ticks). -/
structure NoteSequence where
  notes : List Note
  tempo_bpm : Nat
  total_time : Nat
deriving DecidableEq, Repr

/-- Modelled from the spec: `GenerativeModel` (spec section 3), an opaque
object keyed by `model_id` exposing sample-and-decode over decoding
parameters and a seed. -/
structure GenerativeModel where
  model_id : String
  sampleAndDecode : List (String × Nat) → Nat → List RawNote

/-- Quantize an onset tick to the nearest grid point (spec section 4.3,
step 3). -/
def quantizeTick (t : Nat) : Nat :=
  (t + stepTicks / 2) / stepTicks * stepTicks

/-- Modelled from the spec: post-processing of a single raw note (spec
section 4.3, step 3): clamp the onset into `[0, boundary]` and quantize it to
the grid, clip the offset to the boundary, clamp pitch into `[0,127]` and
velocity into `[1,127]`, and drop the note when nothing of it remains
(offset not after onset). -/
def postProcessNote (boundary : Nat) (r : RawNote) : Option Note :=
  let s : Nat := quantizeTick (min (max r.start_time 0) (boundary : Int)).toNat
  let e : Nat := (min r.end_time (boundary : Int)).toNat
  if s < e then
    some ⟨(min (max r.pitch 0) 127).toNat, (min (max r.velocity 1) 127).toNat, s, e⟩
  else none

/-- Modelled from the spec: deterministic post-processing of the raw decoded
sequence (spec section 4.3, step 3). -/
def postProcess (profile : InstrumentProfile) (raw : List RawNote) : List Note :=
  raw.filterMap (postProcessNote (profile.default_length_steps * stepTicks))

/-- Modelled from the spec: `generate(profile, seed?) → NoteSequence` (spec
section 4.3).  The caller-supplied seed is used verbatim when present,
otherwise a draw from the process-wide random source (`processRandom`) is
used; the model's sample-and-decode runs with the profile's decoding
parameters; post-processing is applied; an empty resulting sequence is a
`GenerationError`, never an empty-but-valid MIDI file. -/
def generate (model : GenerativeModel) (profile : InstrumentProfile)
    (seed : Option Nat) (processRandom : Nat) : Except GenError NoteSequence :=
  let s := seed.getD processRandom
  let raw := model.sampleAndDecode profile.decoding_params s
  let notes := postProcess profile raw
  if notes.isEmpty then .error .generationError
  else .ok ⟨notes, profile.tempo_bpm, profile.default_length_steps * stepTicks⟩

/-! ## Model Cache (spec section 4.2) -/

/-- Modelled from the spec: the Model Cache's internal table, the only
mutable shared state (spec section 5). -/
abbrev ModelCache := List (String × GenerativeModel)

/-- Modelled from the spec: `getOrLoad(model_id)` (spec section 4.2): a first
call for a `model_id` constructs the model and stores it; later calls return
the cached instance without reconstruction.  The third component counts the
constructions performed by this call. -/
def getOrLoad (construct : String → GenerativeModel) (model_id : String)
    (cache : ModelCache) : GenerativeModel × ModelCache × Nat :=
  match List.lookup model_id cache with
  | some m => (m, cache, 0)
  | none =>
      let m := construct model_id
      (m, (model_id, m) :: cache, 1)

/-- Modelled from the spec: `n` concurrent calls to `getOrLoad` for the same
`model_id`.  The cache's at-most-one-build-per-key contract serializes the
construction critical section (one construction proceeds while the other
callers wait, spec sections 4.2 and 5), so the concurrent calls execute as a
sequence of atomic `getOrLoad` steps against the shared table.  Returns the
list of instances received by the callers, the final cache, and the total
number of constructions. -/
def runConcurrentCalls (construct : String → GenerativeModel)
    (model_id : String) : Nat → ModelCache → List GenerativeModel × ModelCache × Nat
  | 0, cache => ([], cache, 0)
  | n + 1, cache =>
      let r := getOrLoad construct model_id cache
      let rest := runConcurrentCalls construct model_id n r.2.1
      (r.1 :: rest.1, rest.2.1, r.2.2 + rest.2.2)

/-! ## MIDI Encoder (spec section 4.4)

Modelled from the spec: `encode(noteSequence, profile) → MidiFile`, a
Standard MIDI File byte buffer: a header chunk (format, track count, time
division), then one track chunk holding, in increasing time order, a tempo
meta-event derived from `profile.tempo_bpm`, a program change for
`profile.midi_program` on `profile.channel`, paired note-on/note-off events
for every note with variable-length delta times, and an end-of-track
meta-event. -/

/-- A track event (without its delta time). -/
inductive TrackEvent where
  | tempoEvt (usPerQuarter : Nat)
  | progEvt (channel program : Nat)
  | offEvt (channel pitch : Nat)
  | onEvt (channel pitch velocity : Nat)
  | endEvt
deriving DecidableEq, Repr

/-- Sort rank of an event among the events sharing a tick: meta and program
change first, then note-offs, then note-ons. -/
def evRank : TrackEvent → Nat
  | .tempoEvt _ => 0
  | .progEvt _ _ => 1
  | .offEvt _ _ => 2
  | .onEvt _ _ _ => 3
  | .endEvt => 4

/-- Linearized sort key of a timed event: tick first, rank second. -/
def evKey (e : Nat × TrackEvent) : Nat := e.1 * 8 + evRank e.2

/-- The sorting order on timed events. -/
def evLE (a b : Nat × TrackEvent) : Prop := evKey a ≤ evKey b

instance : DecidableRel evLE := fun a b => Nat.decLe (evKey a) (evKey b)

instance : IsTotal (Nat × TrackEvent) evLE := ⟨fun a b => Nat.le_total _ _⟩

instance : IsTrans (Nat × TrackEvent) evLE := ⟨fun _ _ _ => Nat.le_trans⟩

/-- The note-on event of a note, at its absolute onset tick. -/
def onEvent (ch : Nat) (n : Note) : Nat × TrackEvent :=
  (n.start_time, .onEvt ch n.pitch n.velocity)

/-- The note-off event of a note, at its absolute offset tick. -/
def offEvent (ch : Nat) (n : Note) : Nat × TrackEvent :=
  (n.end_time, .offEvt ch n.pitch)

/-- The note-on and note-off events of one note, at absolute ticks. -/
def noteEvents (ch : Nat) (n : Note) : List (Nat × TrackEvent) :=
  [onEvent ch n, offEvent ch n]

/-- All absolute-time events of the track, in increasing time order: the
tempo meta-event (24-bit microseconds-per-quarter field) and the program
change at tick 0, then the note events sorted by tick. -/
def sortedTrack (ns : NoteSequence) (p : InstrumentProfile) :
    List (Nat × TrackEvent) :=
  (0, .tempoEvt (60000000 / p.tempo_bpm % 16777216)) ::
  (0, .progEvt (p.channel % 16) (p.midi_program % 128)) ::
  List.insertionSort evLE (ns.notes.flatMap (noteEvents (p.channel % 16)))

/-- Convert absolute ticks to delta times against the running position. -/
def toDeltaTrack (prev : Nat) : List (Nat × TrackEvent) → List (Nat × TrackEvent)
  | [] => []
  | (t, e) :: rest => (t - prev, e) :: toDeltaTrack t rest

/-- Continuation bytes of a variable-length quantity: all base-128 digits of
`m`, each with the continuation bit set.  The first argument is structural
fuel (`m` itself suffices, since the value shrinks by division). -/
def vlqContF : Nat → Nat → List Nat
  | 0, m => [m % 128 + 128]
  | fuel + 1, m =>
      if m < 128 then [m + 128]
      else vlqContF fuel (m / 128) ++ [m % 128 + 128]

/-- Variable-length-quantity encoding of `n`: base-128 digits, big-endian,
continuation bit on every byte but the last. -/
def vlq (n : Nat) : List Nat :=
  if n < 128 then [n] else vlqContF (n / 128) (n / 128) ++ [n % 128]

/-- The data bytes of one event (status byte first). -/
def eventBytes : TrackEvent → List Nat
  | .tempoEvt us => [255, 81, 3, us / 65536 % 256, us / 256 % 256, us % 256]
  | .progEvt ch prog => [192 + ch % 16, prog % 128]
  | .offEvt ch pitch => [128 + ch % 16, pitch % 128, 64]
  | .onEvt ch pitch vel => [144 + ch % 16, pitch % 128, vel % 128]
  | .endEvt => [255, 47, 0]

/-- Bytes of one delta-timed event: the VLQ delta, then the event bytes. -/
def serializeEvent (e : Nat × TrackEvent) : List Nat :=
  vlq e.1 ++ eventBytes e.2

/-- Bytes of a delta-timed event list. -/
def serializeTrackBody (evs : List (Nat × TrackEvent)) : List Nat :=
  evs.flatMap serializeEvent

/-- The 14-byte SMF header chunk: "MThd", length 6, format 0, one track, the
time division. -/
def midiHeader : List Nat :=
  [77, 84, 104, 100, 0, 0, 0, 6, 0, 0, 0, 1, division / 256 % 256, division % 256]

/-- Modelled from the spec: `encode(noteSequence, profile) → MidiFile` (spec
section 4.4).  Header chunk, then one "MTrk" chunk with its 32-bit length and
the delta-timed events terminated by end-of-track. -/
def encode (ns : NoteSequence) (p : InstrumentProfile) : List Nat :=
  let body := serializeTrackBody (toDeltaTrack 0 (sortedTrack ns p)) ++
    serializeEvent (0, .endEvt)
  midiHeader ++
    [77, 84, 114, 107,
     body.length / 16777216 % 256, body.length / 65536 % 256,
     body.length / 256 % 256, body.length % 256] ++ body

/-! ## A standard MIDI reader

Modelled from the spec: the "standard MIDI reader" of the round-trip property
(spec section 8): it reads the header and track chunks, decodes
variable-length delta times, reconstructs absolute times, treats a note-on of
velocity zero as a note-off, and pairs each note-off with the earliest still
open note of the same channel and pitch. -/

/-- Decode one variable-length quantity; `acc` holds the bits read so far. -/
def vlqDecode (acc : Nat) : List Nat → Option (Nat × List Nat)
  | [] => none
  | b :: rest =>
      if b < 128 then some (acc * 128 + b, rest)
      else vlqDecode (acc * 128 + (b - 128)) rest

/-- Parse the body of one event (status byte first), the delta time having
been read already. -/
def parseEventBody (delta : Nat) : List Nat → Option ((Nat × TrackEvent) × List Nat)
  | [] => none
  | b0 :: tail =>
      if b0 = 255 then
        match tail with
        | 81 :: 3 :: a :: b :: c :: rest2 =>
            some ((delta, .tempoEvt (a * 65536 + b * 256 + c)), rest2)
        | 47 :: 0 :: rest2 => some ((delta, .endEvt), rest2)
        | _ => none
      else if 192 ≤ b0 ∧ b0 < 208 then
        match tail with
        | b1 :: rest2 => some ((delta, .progEvt (b0 - 192) b1), rest2)
        | [] => none
      else if 128 ≤ b0 ∧ b0 < 144 then
        match tail with
        | b1 :: _ :: rest3 => some ((delta, .offEvt (b0 - 128) b1), rest3)
        | _ => none
      else if 144 ≤ b0 ∧ b0 < 160 then
        match tail with
        | b1 :: b2 :: rest3 =>
            if b2 = 0 then some ((delta, .offEvt (b0 - 144) b1), rest3)
            else some ((delta, .onEvt (b0 - 144) b1 b2), rest3)
        | _ => none
      else none

/-- Parse one delta-timed event from the byte stream. -/
def parseEvent (bytes : List Nat) : Option ((Nat × TrackEvent) × List Nat) :=
  match vlqDecode 0 bytes with
  | none => none
  | some (delta, rest) => parseEventBody delta rest

/-- Parse delta-timed events until the end-of-track event (which is not
returned); `fuel` bounds the number of events. -/
def parseEvents : Nat → List Nat → Option (List (Nat × TrackEvent))
  | 0, _ => none
  | fuel + 1, bytes =>
      match parseEvent bytes with
      | some ((_, .endEvt), _) => some []
      | some ((d, e), rest) =>
          (parseEvents fuel rest).map (fun evs => (d, e) :: evs)
      | none => none

/-- Reconstruct absolute ticks from delta times. -/
def absEvents (now : Nat) : List (Nat × TrackEvent) → List (Nat × TrackEvent)
  | [] => []
  | (d, e) :: rest => (now + d, e) :: absEvents (now + d) rest

/-- A note as recovered by the reader. -/
structure MidiNote where
  channel : Nat
  pitch : Nat
  velocity : Nat
  start_time : Nat
  end_time : Nat
deriving DecidableEq, Repr

/-- A note-on seen by the reader whose note-off has not arrived yet. -/
structure OpenNote where
  channel : Nat
  pitch : Nat
  velocity : Nat
  start_time : Nat
deriving DecidableEq, Repr

/-- Close the earliest open note with the given channel and pitch at tick
`t`, returning the finished note and the remaining open notes. -/
def closeFirst (ch pitch t : Nat) : List OpenNote → Option (MidiNote × List OpenNote)
  | [] => none
  | o :: rest =>
      if o.channel = ch ∧ o.pitch = pitch then
        some (⟨ch, pitch, o.velocity, o.start_time, t⟩, rest)
      else (closeFirst ch pitch t rest).map (fun r => (r.1, o :: r.2))

/-- Pair note-ons with note-offs over the absolute-time event list,
first-in-first-out per channel and pitch; unmatched note-offs are ignored and
notes left open at the end of the track are dropped. -/
def pairNotes : List (Nat × TrackEvent) → List OpenNote → List MidiNote
  | [], _ => []
  | (t, .onEvt ch pitch vel) :: rest, opens =>
      pairNotes rest (opens ++ [⟨ch, pitch, vel, t⟩])
  | (t, .offEvt ch pitch) :: rest, opens =>
      match closeFirst ch pitch t opens with
      | some (n, opens') => n :: pairNotes rest opens'
      | none => pairNotes rest opens
  | (_, _) :: rest, opens => pairNotes rest opens

/-- Modelled from the spec: the standard MIDI reader applied to a whole file:
check the "MThd" chunk (with its fixed length 6) and the "MTrk" chunk magic,
skip the format, track-count, division and track-length fields, parse the
events of the single track, and recover the notes. -/
def parseMidi (bytes : List Nat) : Option (List MidiNote) :=
  if bytes.take 8 = [77, 84, 104, 100, 0, 0, 0, 6] ∧
      (bytes.drop 14).take 4 = [77, 84, 114, 107] then
    let body := bytes.drop 22
    (parseEvents (body.length + 1) body).map
      (fun evs => pairNotes (absEvents 0 evs) [])
  else none

/-- The image of an original note under the reader's note representation. -/
def toMidiNote (ch : Nat) (n : Note) : MidiNote :=
  ⟨ch, n.pitch, n.velocity, n.start_time, n.end_time⟩

/-- The entry a note-on pushes onto the open-note list. -/
def toOpenNote (ch : Nat) (n : Note) : OpenNote :=
  ⟨ch, n.pitch, n.velocity, n.start_time⟩

/-- Well-formedness of a track event: data fields fit their MIDI bit widths
and a note-on carries a non-zero velocity.  Every event the encoder emits
satisfies this when the source notes satisfy the data-model invariant. -/
def EvOk : TrackEvent → Prop
  | .tempoEvt us => us < 16777216
  | .progEvt ch prog => ch < 16 ∧ prog < 128
  | .offEvt ch pitch => ch < 16 ∧ pitch < 128
  | .onEvt ch pitch vel => ch < 16 ∧ pitch < 128 ∧ 1 ≤ vel ∧ vel < 128
  | .endEvt => True

/-- The pitch-separation relation: notes of equal pitch must not overlap in
time. -/
def pitchSeparated (n m : Note) : Prop :=
  n.pitch = m.pitch → n.end_time ≤ m.start_time ∨ m.end_time ≤ n.start_time

/-! ## Concrete fixtures used by witnesses and counterexamples -/

/-- The kick profile of the registry table. -/
def kickProfile : InstrumentProfile :=
  ⟨"kick", "drums_vae", [("temperature", 1)], 0, 9, 16, 120⟩

/-- A model whose sample-and-decode returns no notes at all. -/
def emptyModel : GenerativeModel := ⟨"empty_model", fun _ _ => []⟩

/-- A model emitting a single raw note with out-of-range pitch, velocity and
times. -/
def wildModel : GenerativeModel :=
  ⟨"wild_model", fun _ _ => [⟨200, 300, -5, 10000⟩]⟩

/-- The post-processed form of `wildModel`'s raw note. -/
def clampedNote : Note := ⟨127, 127, 0, 1920⟩

/-- A trivial model constructor for exercising the Model Cache. -/
def unitConstruct : String → GenerativeModel := fun s => ⟨s, fun _ _ => []⟩

/-- Two same-pitch overlapping notes satisfying the data-model invariants:
pitch 60 held from tick 0 to 960, and pitch 60 again from tick 480 to 720. -/
def overlapSequence : NoteSequence :=
  ⟨[⟨60, 100, 0, 960⟩, ⟨60, 90, 480, 720⟩], 120, 7680⟩

/-- Two overlapping notes of distinct pitches, for the round-trip witness. -/
def chordSequence : NoteSequence :=
  ⟨[⟨60, 100, 0, 960⟩, ⟨64, 90, 480, 720⟩], 120, 7680⟩

/-- What the standard reader recovers from the encoding of
`overlapSequence`: the first note-off closes the earliest open pitch-60
note, so the velocities end up attached to the wrong intervals. -/
def overlapRecovered : List MidiNote :=
  [⟨9, 60, 100, 0, 720⟩, ⟨9, 60, 90, 480, 960⟩]

instance (n m : Note) : Decidable (pitchSeparated n m) :=
  inferInstanceAs (Decidable (_ → _ ∨ _))

instance (e : TrackEvent) : Decidable (EvOk e) := by
  unfold EvOk
  cases e <;> infer_instance

/-! # Theorems -/

/-! ## C1: the client's instrument list matches the advertised set -/

/-- C1: every name in the client's `VALID_INSTRUMENTS` list is in the set
advertised for `GET /generate-midi?instrument={name}`, and every advertised
name is in the client's list. -/
theorem client_list_matches_advertised_set :
    ∀ s : String, s ∈ VALID_INSTRUMENTS ↔ s ∈ advertisedInstruments :=
  fun _ => Iff.rfl

/-! ## C2: the saved file is named `{name}_pattern.mid` -/

/-- C2: for every instrument name, on a successful response the client saves
the response bytes under the filename `{name}_pattern.mid`. -/
theorem download_filename_is_instrument_pattern_mid
    (instrument : String) (bytes : List Nat) :
    (handleGenerateMidi instrument (.success bytes)).downloadedFile =
      some (instrument ++ "_pattern.mid") := rfl

/-! ## C3: a present `detail` field is NOT always displayed verbatim -/

/-- C3 counterexample: a failure response whose JSON body contains the
`detail` string `""` is displayed as the fallback message
`"HTTP error! Status: 500"`, not as the (empty) `detail` string: JavaScript's
`errorData.detail || fallback` treats the empty string as falsy. -/
theorem empty_detail_not_displayed_verbatim :
    (handleGenerateMidi "lead" (.failure 500 (some ""))).error =
      some "HTTP error! Status: 500" ∧
    (handleGenerateMidi "lead" (.failure 500 (some ""))).error ≠ some "" := by
  decide

/-- C3 (amended): for every failure response whose JSON body contains a
non-empty `detail` string field, the client stores exactly that string in its
displayed error state. -/
theorem nonempty_detail_displayed_verbatim (instrument : String) (status : Nat)
    (d : String) (hd : d ≠ "") :
    (handleGenerateMidi instrument (.failure status (some d))).error = some d := by
  simp [handleGenerateMidi, jsOrElse, hd]

/-- Witness for the amended C3 at a concrete failure response. -/
theorem nonempty_detail_displayed_verbatim_witness :
    "Unknown instrument: trumpet" ≠ "" ∧
    (handleGenerateMidi "kick" (.failure 400 (some "Unknown instrument: trumpet"))).error =
      some "Unknown instrument: trumpet" :=
  ⟨by decide,
   nonempty_detail_displayed_verbatim "kick" 400 "Unknown instrument: trumpet"
     (by decide)⟩

/-! ## C10: the handler always ends with `isLoading = false`, and success
leaves no error -/

/-- C10: after every invocation of the generate handler terminates, the
`isLoading` state is `false`; if the request succeeded, the `error` state is
`null`. -/
theorem handler_resets_loading_and_clears_error
    (instrument : String) (outcome : FetchOutcome) :
    (handleGenerateMidi instrument outcome).isLoading = false ∧
    (∀ bytes, outcome = .success bytes →
      (handleGenerateMidi instrument outcome).error = none) := by
  cases outcome <;> simp [handleGenerateMidi]

/-- Witness for C10 at a concrete successful invocation. -/
theorem handler_resets_loading_and_clears_error_witness :
    (handleGenerateMidi "lead" (.success [77, 84])).isLoading = false ∧
    (handleGenerateMidi "lead" (.success [77, 84])).error = none :=
  ⟨(handler_resets_loading_and_clears_error "lead" (.success [77, 84])).1,
   (handler_resets_loading_and_clears_error "lead" (.success [77, 84])).2
     [77, 84] rfl⟩

/-! ## C4: `resolve` succeeds in-range on valid names, fails otherwise -/

/-- C4: every name of the fixed valid instrument set resolves to a profile
with `midi_program` in `[0,127]` and `channel` in `[0,15]`; every other
string fails with `UnknownInstrument`. -/
theorem resolve_in_range_on_valid_names (name : String) :
    (name ∈ advertisedInstruments →
      ∃ p, resolve name = .ok p ∧ p.midi_program ≤ 127 ∧ p.channel ≤ 15) ∧
    (name ∉ advertisedInstruments →
      resolve name = .error (.unknownInstrument name)) := by
  constructor
  · intro h
    fin_cases h <;> exact ⟨_, rfl, by decide, by decide⟩
  · intro h
    have hnone : List.lookup name registryTable = none := by
      rw [List.lookup_eq_none_iff]
      intro q hq
      fin_cases hq <;>
        · simp only [bne_iff_ne]
          intro he
          subst he
          exact h (by decide)
    simp [resolve, hnone]

/-- Witness for C4: a valid name resolves in range, an unregistered one
fails. -/
theorem resolve_in_range_witness :
    (∃ p, resolve "kick" = .ok p ∧ p.midi_program ≤ 127 ∧ p.channel ≤ 15) ∧
    resolve "trumpet" = .error (.unknownInstrument "trumpet") :=
  ⟨(resolve_in_range_on_valid_names "kick").1 (by decide),
   (resolve_in_range_on_valid_names "trumpet").2 (by decide)⟩

/-! ## C5: the Pattern Generator is deterministic in its explicit inputs -/

/-- C5: two calls to `generate` with the same model instance, profile and
explicitly supplied seed yield identical results, whatever the state of the
process-wide random source at each call. -/
theorem generate_deterministic (m : GenerativeModel) (p : InstrumentProfile)
    (seed r₁ r₂ : Nat) :
    generate m p (some seed) r₁ = generate m p (some seed) r₂ := rfl

/-! ## C7: an empty model output is a `GenerationError` -/

/-- C7: when the model returns a sequence with zero notes the generator fails
with `GenerationError`; and `generate` never succeeds with a note-free
sequence (no valid-but-empty MIDI input is ever produced). -/
theorem empty_sequence_is_generation_error (m : GenerativeModel)
    (p : InstrumentProfile) (seed : Option Nat) (r : Nat) :
    (m.sampleAndDecode p.decoding_params (seed.getD r) = [] →
      generate m p seed r = .error .generationError) ∧
    (∀ ns, generate m p seed r = .ok ns → ns.notes ≠ []) := by
  constructor
  · intro h
    simp [generate, h, postProcess]
  · intro ns h
    simp only [generate] at h
    split at h
    · exact absurd h (by simp)
    · next hne =>
        cases h
        simpa using hne

/-- Witness for C7: the all-empty model yields `GenerationError`, and a
concrete successful generation has a non-empty note list. -/
theorem empty_sequence_is_generation_error_witness :
    generate emptyModel kickProfile (some 42) 0 = .error .generationError ∧
    (⟨[clampedNote], 120, 1920⟩ : NoteSequence).notes ≠ [] :=
  ⟨(empty_sequence_is_generation_error emptyModel kickProfile (some 42) 0).1 rfl,
   (empty_sequence_is_generation_error wildModel kickProfile (some 1) 0).2
     ⟨[clampedNote], 120, 1920⟩ rfl⟩

/-! ## C9: every generated note satisfies the data-model invariant -/

/-- Every note surviving post-processing is in range and well-ordered. -/
theorem mem_postProcess_bounds {p : InstrumentProfile} {raw : List RawNote}
    {n : Note} (h : n ∈ postProcess p raw) :
    n.pitch ≤ 127 ∧ 1 ≤ n.velocity ∧ n.velocity ≤ 127 ∧
      n.start_time < n.end_time := by
  simp only [postProcess, List.mem_filterMap] at h
  obtain ⟨r, _, hr⟩ := h
  simp only [postProcessNote] at hr
  split at hr
  · next hlt =>
      cases hr
      refine ⟨?_, ?_, ?_, hlt⟩ <;> simp
  · exact absurd hr (by simp)

/-- C9: every `NoteSequence` returned by the Pattern Generator satisfies the
data-model invariant: post-processing clamps pitch into `[0,127]` and
velocity into `[1,127]`, and every surviving note has
`start_time < end_time`. -/
theorem generated_notes_satisfy_invariant (m : GenerativeModel)
    (p : InstrumentProfile) (seed : Option Nat) (r : Nat) (ns : NoteSequence)
    (h : generate m p seed r = .ok ns) :
    ∀ n ∈ ns.notes, n.pitch ≤ 127 ∧ 1 ≤ n.velocity ∧ n.velocity ≤ 127 ∧
      n.start_time < n.end_time := by
  intro n hn
  simp only [generate] at h
  split at h
  · exact absurd h (by simp)
  · cases h
    exact mem_postProcess_bounds hn

/-- Witness for C9: the clamped note produced from `wildModel`'s out-of-range
raw note satisfies the invariant. -/
theorem generated_notes_satisfy_invariant_witness :
    clampedNote.pitch ≤ 127 ∧ 1 ≤ clampedNote.velocity ∧
      clampedNote.velocity ≤ 127 ∧ clampedNote.start_time < clampedNote.end_time :=
  generated_notes_satisfy_invariant wildModel kickProfile (some 1) 0
    ⟨[clampedNote], 120, 1920⟩ rfl clampedNote (by simp)

/-! ## C6: the Model Cache builds each cold model exactly once -/

/-- Against a cache that already holds `m` under `model_id`, any number of
calls return `m` without construction and leave the cache unchanged. -/
theorem runConcurrentCalls_warm (construct : String → GenerativeModel)
    (model_id : String) (m : GenerativeModel) (n : Nat) (cache : ModelCache)
    (h : List.lookup model_id cache = some m) :
    runConcurrentCalls construct model_id n cache = (List.replicate n m, cache, 0) := by
  induction n with
  | zero => simp [runConcurrentCalls]
  | succ k ih => simp [runConcurrentCalls, getOrLoad, h, ih, List.replicate_succ]

/-- C6: `n ≥ 1` concurrent first-calls of `getOrLoad` for a cold `model_id`
perform exactly one construction, and every caller receives the same
instance (the list of received instances is `n` copies of the one built
model). -/
theorem modelCache_builds_once (construct : String → GenerativeModel)
    (model_id : String) (n : Nat) (hn : 1 ≤ n) :
    (runConcurrentCalls construct model_id n []).2.2 = 1 ∧
    (runConcurrentCalls construct model_id n []).1 =
      List.replicate n (construct model_id) := by
  obtain ⟨k, rfl⟩ : ∃ k, n = k + 1 := ⟨n - 1, by omega⟩
  have hw := runConcurrentCalls_warm construct model_id (construct model_id) k
    [(model_id, construct model_id)] (by simp)
  constructor <;>
    simp [runConcurrentCalls, getOrLoad, hw, List.replicate_succ]

/-- Witness for C6 at three concurrent cold calls. -/
theorem modelCache_builds_once_witness :
    (runConcurrentCalls unitConstruct "drums_vae" 3 []).2.2 = 1 ∧
    (runConcurrentCalls unitConstruct "drums_vae" 3 []).1 =
      List.replicate 3 (unitConstruct "drums_vae") :=
  modelCache_builds_once unitConstruct "drums_vae" 3 (by decide)

/-! ## C8: encode/parse round-trip (corrected)

The chain below establishes that the reader inverts the encoder at the byte
level, at the event level, and — given the pitch-separation proviso — at the
note level. -/

/-- Decoding a continuation-byte block recovers its value. -/
theorem vlqContF_decode (fuel : Nat) :
    ∀ (m : Nat) (rest : List Nat), m ≤ fuel →
      vlqDecode 0 (vlqContF fuel m ++ rest) = vlqDecode m rest := by
  induction fuel with
  | zero =>
      intro m rest hm
      interval_cases m
      simp [vlqContF, vlqDecode]
  | succ k ih =>
      intro m rest hm
      by_cases h : m < 128
      · rw [vlqContF, if_pos h]
        simp only [List.cons_append, List.nil_append, vlqDecode]
        rw [if_neg (by omega)]
        have h0 : 0 * 128 + (m + 128 - 128) = m := by omega
        rw [h0]
        rfl
      · rw [vlqContF, if_neg h, List.append_assoc, ih (m / 128) _ (by omega)]
        simp only [List.cons_append, List.nil_append, vlqDecode]
        rw [if_neg (by omega)]
        have h0 : m / 128 * 128 + (m % 128 + 128 - 128) = m := by omega
        rw [h0]
        rfl

/-- Decoding a variable-length quantity recovers the encoded value and the
following bytes. -/
theorem vlq_decode (n : Nat) (rest : List Nat) :
    vlqDecode 0 (vlq n ++ rest) = some (n, rest) := by
  by_cases h : n < 128
  · rw [vlq, if_pos h]
    simp only [List.cons_append, List.nil_append, vlqDecode]
    rw [if_pos h]
    simp
  · rw [vlq, if_neg h, List.append_assoc, vlqContF_decode _ _ _ le_rfl]
    simp only [List.cons_append, List.nil_append, vlqDecode]
    rw [if_pos (Nat.mod_lt _ (by omega))]
    have h0 : n / 128 * 128 + n % 128 = n := by omega
    rw [h0]
    rfl

/-- The reader parses one serialized event back, leaving the rest of the
stream untouched. -/
theorem parseEvent_serializeEvent (d : Nat) (e : TrackEvent) (rest : List Nat)
    (h : EvOk e) :
    parseEvent (serializeEvent (d, e) ++ rest) = some ((d, e), rest) := by
  have hassoc : serializeEvent (d, e) ++ rest = vlq d ++ (eventBytes e ++ rest) := by
    simp [serializeEvent]
  rw [parseEvent, hassoc, vlq_decode]
  cases e with
  | tempoEvt us =>
      simp only [EvOk] at h
      simp only [eventBytes, List.cons_append, List.nil_append, parseEventBody]
      have harith : us / 65536 % 256 * 65536 + us / 256 % 256 * 256 + us % 256 = us := by
        omega
      rw [if_true, harith]
  | progEvt ch prog =>
      obtain ⟨h1, h2⟩ := h
      simp only [eventBytes, List.cons_append, List.nil_append, parseEventBody,
        Nat.mod_eq_of_lt h1, Nat.mod_eq_of_lt h2]
      rw [if_neg (by omega), if_pos (by omega)]
      have : 192 + ch - 192 = ch := by omega
      rw [this]
  | offEvt ch pitch =>
      obtain ⟨h1, h2⟩ := h
      simp only [eventBytes, List.cons_append, List.nil_append, parseEventBody,
        Nat.mod_eq_of_lt h1, Nat.mod_eq_of_lt h2]
      rw [if_neg (by omega), if_neg (by omega), if_pos (by omega)]
      have : 128 + ch - 128 = ch := by omega
      rw [this]
  | onEvt ch pitch vel =>
      obtain ⟨h1, h2, h3, h4⟩ := h
      simp only [eventBytes, List.cons_append, List.nil_append, parseEventBody,
        Nat.mod_eq_of_lt h1, Nat.mod_eq_of_lt h2, Nat.mod_eq_of_lt h4]
      rw [if_neg (by omega), if_neg (by omega), if_neg (by omega),
        if_pos (by omega)]
      have : 144 + ch - 144 = ch := by omega
      rw [this, if_neg (by omega)]
  | endEvt =>
      simp only [eventBytes, List.cons_append, List.nil_append, parseEventBody]
      rw [if_true]

/-- One step of `parseEvents` over a stream whose head parses to a
non-terminal event. -/
theorem parseEvents_step (f d : Nat) (e : TrackEvent) (he : e ≠ TrackEvent.endEvt)
    (bytes res : List Nat) (hres : parseEvent bytes = some ((d, e), res)) :
    parseEvents (f + 1) bytes =
      (parseEvents f res).map (fun evs => (d, e) :: evs) := by
  rw [parseEvents, hres]
  cases e with
  | endEvt => exact absurd rfl he
  | tempoEvt us => rfl
  | progEvt a b => rfl
  | offEvt a b => rfl
  | onEvt a b c => rfl

/-- The reader recovers the serialized delta-timed event list exactly,
stopping at the trailing end-of-track event. -/
theorem parseEvents_serializeTrackBody :
    ∀ (devs : List (Nat × TrackEvent)) (fuel : Nat),
      devs.length < fuel →
      (∀ e ∈ devs, EvOk e.2 ∧ e.2 ≠ TrackEvent.endEvt) →
      parseEvents fuel
          (serializeTrackBody devs ++ serializeEvent (0, TrackEvent.endEvt)) =
        some devs := by
  intro devs
  induction devs with
  | nil =>
      intro fuel hf _
      obtain ⟨f, rfl⟩ : ∃ f, fuel = f + 1 := ⟨fuel - 1, by omega⟩
      have hp : parseEvent (serializeEvent (0, TrackEvent.endEvt) ++ []) =
          some ((0, TrackEvent.endEvt), []) :=
        parseEvent_serializeEvent 0 .endEvt [] trivial
      rw [List.append_nil] at hp
      simp only [serializeTrackBody, List.flatMap_nil, List.nil_append]
      rw [parseEvents, hp]
  | cons hd tl ih =>
      intro fuel hf hok
      obtain ⟨f, rfl⟩ : ∃ f, fuel = f + 1 := ⟨fuel - 1, by omega⟩
      obtain ⟨d, e⟩ := hd
      have hok_hd := hok (d, e) (List.mem_cons_self _ _)
      have hshape : serializeTrackBody ((d, e) :: tl) ++
            serializeEvent (0, TrackEvent.endEvt) =
          serializeEvent (d, e) ++
            (serializeTrackBody tl ++ serializeEvent (0, TrackEvent.endEvt)) := by
        simp [serializeTrackBody]
      have hrec : parseEvents f
          (serializeTrackBody tl ++ serializeEvent (0, TrackEvent.endEvt)) =
          some tl := by
        refine ih f ?_ (fun e' he' => hok e' (List.mem_cons_of_mem _ he'))
        simp only [List.length_cons] at hf
        omega
      rw [hshape, parseEvents_step f d e hok_hd.2 _ _
        (parseEvent_serializeEvent d e _ hok_hd.1), hrec]
      rfl

/-- Reconstructing absolute times undoes the delta-time conversion on a
time-sorted stream. -/
theorem absEvents_toDeltaTrack :
    ∀ (evs : List (Nat × TrackEvent)) (prev : Nat),
      (∀ e ∈ evs, prev ≤ e.1) →
      List.Pairwise (fun a b => a.1 ≤ b.1) evs →
      absEvents prev (toDeltaTrack prev evs) = evs := by
  intro evs
  induction evs with
  | nil => intro prev _ _; rfl
  | cons hd tl ih =>
      intro prev hle hpw
      obtain ⟨t, e⟩ := hd
      have hpt : prev ≤ t := hle (t, e) (List.mem_cons_self _ _)
      rw [toDeltaTrack, absEvents]
      have h1 : prev + (t - prev) = t := by omega
      rw [h1, ih t (List.pairwise_cons.mp hpw).1 (List.pairwise_cons.mp hpw).2]

/-- Every event rank is at most 4. -/
theorem evRank_le (e : TrackEvent) : evRank e ≤ 4 := by
  cases e <;> simp [evRank]

/-- The encoder's track event list is in non-decreasing tick order. -/
theorem sortedTrack_tick_mono (ns : NoteSequence) (p : InstrumentProfile) :
    List.Pairwise (fun a b => a.1 ≤ b.1) (sortedTrack ns p) := by
  have hs : List.Sorted evLE
      (List.insertionSort evLE (ns.notes.flatMap (noteEvents (p.channel % 16)))) :=
    List.sorted_insertionSort evLE _
  have hmono : List.Pairwise (fun a b : Nat × TrackEvent => a.1 ≤ b.1)
      (List.insertionSort evLE (ns.notes.flatMap (noteEvents (p.channel % 16)))) := by
    refine hs.imp ?_
    intro a b hab
    have ha := evRank_le a.2
    have hb := evRank_le b.2
    simp only [evLE, evKey] at hab
    omega
  refine List.pairwise_cons.mpr ⟨?_, List.pairwise_cons.mpr ⟨?_, hmono⟩⟩ <;>
    exact fun e _ => Nat.zero_le _

/-- Every event the encoder emits is well formed and is not the end-of-track
event. -/
theorem sortedTrack_events_ok (ns : NoteSequence) (p : InstrumentProfile)
    (hval : ∀ n ∈ ns.notes, n.pitch ≤ 127 ∧ 1 ≤ n.velocity ∧ n.velocity ≤ 127 ∧
      n.start_time < n.end_time) :
    ∀ ev ∈ sortedTrack ns p, EvOk ev.2 ∧ ev.2 ≠ TrackEvent.endEvt := by
  intro ev hev
  rcases List.mem_cons.mp hev with rfl | hev
  · exact ⟨Nat.mod_lt _ (by norm_num), by simp⟩
  rcases List.mem_cons.mp hev with rfl | hev
  · exact ⟨⟨Nat.mod_lt _ (by norm_num), Nat.mod_lt _ (by norm_num)⟩, by simp⟩
  have hperm := List.perm_insertionSort evLE
    (ns.notes.flatMap (noteEvents (p.channel % 16)))
  obtain ⟨n, hn, hevn⟩ := List.mem_flatMap.mp (hperm.subset hev)
  obtain ⟨h1, h2, h3, h4⟩ := hval n hn
  simp only [noteEvents, List.mem_cons, List.not_mem_nil, or_false] at hevn
  rcases hevn with rfl | rfl
  · refine ⟨?_, by simp [onEvent]⟩
    simp only [onEvent]
    exact ⟨Nat.mod_lt _ (by norm_num), by omega, h2, by omega⟩
  · refine ⟨?_, by simp [offEvent]⟩
    simp only [offEvent]
    exact ⟨Nat.mod_lt _ (by norm_num), by omega⟩

/-- Each event takes at least one byte, so the serialized body is at least as
long as the event list. -/
theorem length_le_serializeTrackBody (devs : List (Nat × TrackEvent)) :
    devs.length ≤ (serializeTrackBody devs).length := by
  induction devs with
  | nil => simp [serializeTrackBody]
  | cons hd tl ih =>
      have hshape : serializeTrackBody (hd :: tl) =
          serializeEvent hd ++ serializeTrackBody tl := by
        simp [serializeTrackBody]
      have h1 : 1 ≤ (serializeEvent hd).length := by
        obtain ⟨d, e⟩ := hd
        have hv : 1 ≤ (vlq d).length := by
          rw [vlq]
          split <;> simp
        simp only [serializeEvent, List.length_append]
        omega
      rw [hshape]
      simp only [List.length_append, List.length_cons]
      omega

/-- Delta-time conversion preserves the events themselves. -/
theorem toDeltaTrack_snd :
    ∀ (evs : List (Nat × TrackEvent)) (prev : Nat),
      (toDeltaTrack prev evs).map Prod.snd = evs.map Prod.snd := by
  intro evs
  induction evs with
  | nil => intro prev; rfl
  | cons hd tl ih =>
      intro prev
      obtain ⟨t, e⟩ := hd
      simp [toDeltaTrack, ih]

/-- Pitch separation is a symmetric relation. -/
theorem pitchSeparated_symm : Symmetric pitchSeparated := by
  intro n m h hp
  rcases h hp.symm with h1 | h2
  · exact Or.inr h1
  · exact Or.inl h2

/-- When exactly one open note carries the sought channel and pitch,
`closeFirst` closes precisely it and keeps the others (up to order). -/
theorem closeFirst_unique (ch pt t : Nat) :
    ∀ (opens : List OpenNote) (o : OpenNote),
      o ∈ opens → o.channel = ch → o.pitch = pt →
      (∀ o' ∈ opens, o'.channel = ch → o'.pitch = pt → o' = o) →
      ∃ opens', closeFirst ch pt t opens =
          some (⟨ch, pt, o.velocity, o.start_time, t⟩, opens') ∧
        opens'.Perm (opens.erase o) := by
  intro opens
  induction opens with
  | nil => intro o ho _ _ _; exact absurd ho (List.not_mem_nil o)
  | cons hd tlo ih =>
      intro o ho hch hpt huniq
      by_cases hhd : hd.channel = ch ∧ hd.pitch = pt
      · have heq : hd = o := huniq hd (List.mem_cons_self _ _) hhd.1 hhd.2
        refine ⟨tlo, ?_, ?_⟩
        · rw [closeFirst, if_pos hhd, heq]
        · rw [heq, List.erase_cons_head]
      · have ho' : o ∈ tlo := by
          rcases List.mem_cons.mp ho with rfl | h
          · exact absurd ⟨hch, hpt⟩ hhd
          · exact h
        obtain ⟨opens', hcf, hperm⟩ := ih o ho' hch hpt
          (fun o' h' c' p' => huniq o' (List.mem_cons_of_mem _ h') c' p')
        refine ⟨hd :: opens', ?_, ?_⟩
        · rw [closeFirst, if_neg hhd, hcf]
          rfl
        · have hne : hd ≠ o := fun he => hhd (he ▸ ⟨hch, hpt⟩)
          rw [List.erase_cons_tail (by simp [hne])]
          exact hperm.cons hd

/-- Correctness of first-in-first-out note pairing over a sorted event
stream.  `A` are the notes whose note-on has been consumed (their entries are
the open notes), `F` are the notes with both events still ahead; under the
data-model validity of the notes and pitch separation, the pairing emits
exactly the notes of `A ++ F`, as a permutation. -/
theorem pairNotes_spec (ch : Nat) :
    ∀ (evs : List (Nat × TrackEvent)) (A F : List Note) (opens : List OpenNote),
      List.Sorted evLE evs →
      evs.Perm (A.map (offEvent ch) ++ F.flatMap (noteEvents ch)) →
      opens.Perm (A.map (toOpenNote ch)) →
      (∀ n ∈ A ++ F, n.start_time < n.end_time) →
      List.Pairwise pitchSeparated (A ++ F) →
      (∀ a ∈ A, ∀ ev ∈ evs, a.start_time * 8 + 3 ≤ evKey ev) →
      (pairNotes evs opens).Perm ((A ++ F).map (toMidiNote ch)) := by
  intro evs
  induction evs with
  | nil =>
      intro A F opens _ hperm _ _ _ _
      have hnil : A.map (offEvent ch) ++ F.flatMap (noteEvents ch) = [] :=
        hperm.symm.eq_nil
      rcases List.append_eq_nil.mp hnil with ⟨hA, hF⟩
      have hA' : A = [] := List.map_eq_nil_iff.mp hA
      have hF' : F = [] := by
        cases F with
        | nil => rfl
        | cons f fs => simp [noteEvents] at hF
      subst hA'
      subst hF'
      simp [pairNotes]
  | cons hd tl ih =>
      intro A F opens hsort hperm hopens hval hsep hlb
      obtain ⟨t, ev⟩ := hd
      have hsort_tl : List.Sorted evLE tl := (List.pairwise_cons.mp hsort).2
      have hsort_head : ∀ e' ∈ tl, evLE (t, ev) e' := (List.pairwise_cons.mp hsort).1
      have hmem : (t, ev) ∈ A.map (offEvent ch) ++ F.flatMap (noteEvents ch) :=
        hperm.subset (List.mem_cons_self _ _)
      cases ev with
      | tempoEvt us =>
          exfalso
          rcases List.mem_append.mp hmem with h | h
          · obtain ⟨a, _, ha⟩ := List.mem_map.mp h
            simp [offEvent] at ha
          · obtain ⟨f, _, hf⟩ := List.mem_flatMap.mp h
            simp [noteEvents, onEvent, offEvent] at hf
      | progEvt c q =>
          exfalso
          rcases List.mem_append.mp hmem with h | h
          · obtain ⟨a, _, ha⟩ := List.mem_map.mp h
            simp [offEvent] at ha
          · obtain ⟨f, _, hf⟩ := List.mem_flatMap.mp h
            simp [noteEvents, onEvent, offEvent] at hf
      | endEvt =>
          exfalso
          rcases List.mem_append.mp hmem with h | h
          · obtain ⟨a, _, ha⟩ := List.mem_map.mp h
            simp [offEvent] at ha
          · obtain ⟨f, _, hf⟩ := List.mem_flatMap.mp h
            simp [noteEvents, onEvent, offEvent] at hf
      | onEvt c pp vv =>
          have hF : (t, TrackEvent.onEvt c pp vv) ∈ F.flatMap (noteEvents ch) := by
            rcases List.mem_append.mp hmem with h | h
            · exfalso
              obtain ⟨a, _, ha⟩ := List.mem_map.mp h
              simp [offEvent] at ha
            · exact h
          obtain ⟨f, hfF, hfe⟩ := List.mem_flatMap.mp hF
          simp only [noteEvents, List.mem_cons, List.not_mem_nil, or_false] at hfe
          rcases hfe with hfe | hfe
          swap
          · exfalso
            simp [offEvent] at hfe
          simp only [onEvent, Prod.mk.injEq, TrackEvent.onEvt.injEq] at hfe
          obtain ⟨ht, hc, hpp, hvv⟩ := hfe
          have hc2 : ch = c := hc.symm
          subst ht
          subst hc2
          subst hpp
          subst hvv
          have hFperm : F.Perm (f :: F.erase f) := List.perm_cons_erase hfF
          have hAFperm : ((A ++ [f]) ++ F.erase f).Perm (A ++ F) := by
            have h1 : (A ++ [f]) ++ F.erase f = A ++ (f :: F.erase f) := by
              rw [List.append_assoc]
              rfl
            rw [h1]
            exact hFperm.symm.append_left A
          have hKey : tl.Perm ((A ++ [f]).map (offEvent ch) ++
              (F.erase f).flatMap (noteEvents ch)) := by
            have hmap : (A ++ [f]).map (offEvent ch) =
                A.map (offEvent ch) ++ [offEvent ch f] := by simp
            rw [hmap, List.append_assoc]
            have h1 : ((f.start_time, TrackEvent.onEvt ch f.pitch f.velocity) :: tl).Perm
                (onEvent ch f :: (A.map (offEvent ch) ++
                  (offEvent ch f :: (F.erase f).flatMap (noteEvents ch)))) := by
              refine hperm.trans ?_
              have h2 : (F.flatMap (noteEvents ch)).Perm
                  (onEvent ch f :: offEvent ch f ::
                    (F.erase f).flatMap (noteEvents ch)) := by
                have h3 := hFperm.flatMap_right (noteEvents ch)
                simpa [noteEvents] using h3
              refine (h2.append_left (A.map (offEvent ch))).trans ?_
              exact List.perm_middle
            exact h1.cons_inv
          have hopens' : (opens ++ [toOpenNote ch f]).Perm
              ((A ++ [f]).map (toOpenNote ch)) := by
            rw [List.map_append]
            exact hopens.append (List.Perm.refl _)
          have happly := ih (A ++ [f]) (F.erase f) (opens ++ [toOpenNote ch f])
            hsort_tl hKey hopens'
            (fun n hn => hval n (hAFperm.subset hn))
            ((hAFperm.pairwise_iff (fun h => pitchSeparated_symm h)).mpr hsep)
            ?_
          · have hstep : pairNotes
                ((f.start_time, TrackEvent.onEvt ch f.pitch f.velocity) :: tl) opens =
                pairNotes tl (opens ++ [⟨ch, f.pitch, f.velocity, f.start_time⟩]) := rfl
            rw [hstep]
            exact happly.trans (hAFperm.map _)
          · intro a ha e' he'
            rcases List.mem_append.mp ha with h | h
            · exact hlb a h e' (List.mem_cons_of_mem _ he')
            · have haf : a = f := by simpa using h
              subst haf
              have hkey := hsort_head e' he'
              simp only [evLE, evKey, evRank] at hkey ⊢
              omega
      | offEvt c pp =>
          have hexA : ∃ a ∈ A, offEvent ch a = (t, TrackEvent.offEvt c pp) := by
            rcases List.mem_append.mp hmem with h | h
            · obtain ⟨a, haA, ha⟩ := List.mem_map.mp h
              exact ⟨a, haA, ha⟩
            · exfalso
              obtain ⟨f, hfF, hfe⟩ := List.mem_flatMap.mp h
              simp only [noteEvents, List.mem_cons, List.not_mem_nil, or_false] at hfe
              rcases hfe with hfe | hfe
              · simp [onEvent] at hfe
              · simp only [offEvent, Prod.mk.injEq, TrackEvent.offEvt.injEq] at hfe
                obtain ⟨ht, hc, hpp⟩ := hfe
                have honmem : onEvent ch f ∈ (t, TrackEvent.offEvt c pp) :: tl :=
                  hperm.symm.subset (List.mem_append_right _
                    (List.mem_flatMap.mpr ⟨f, hfF, by simp [noteEvents]⟩))
                have honne : onEvent ch f ≠ (t, TrackEvent.offEvt c pp) := by
                  simp [onEvent]
                have honTl : onEvent ch f ∈ tl := by
                  rcases List.mem_cons.mp honmem with h' | h'
                  · exact absurd h' honne
                  · exact h'
                have hkey := hsort_head _ honTl
                have hfval := hval f (List.mem_append_right _ hfF)
                simp only [evLE, evKey, onEvent, evRank] at hkey
                omega
          obtain ⟨a, haA, hae⟩ := hexA
          have hae' : a.end_time = t ∧ ch = c ∧ a.pitch = pp := by
            simpa only [offEvent, Prod.mk.injEq, TrackEvent.offEvt.injEq] using hae
          obtain ⟨hta, hca, hppa⟩ := hae'
          subst hta
          subst hca
          subst hppa
          have huniqA : ∀ a' ∈ A, a'.pitch = a.pitch → a' = a := by
            intro a' ha' hpitch
            by_contra hne
            have hsepa : pitchSeparated a' a :=
              List.Pairwise.forall pitchSeparated_symm hsep
                (List.mem_append_left _ ha') (List.mem_append_left _ haA) hne
            have hv' := hval a' (List.mem_append_left _ ha')
            have hv := hval a (List.mem_append_left _ haA)
            rcases hsepa hpitch with hord | hord
            · have hmem' : offEvent ch a' ∈
                  (a.end_time, TrackEvent.offEvt ch a.pitch) :: tl :=
                hperm.symm.subset (List.mem_append_left _
                  (List.mem_map_of_mem _ ha'))
              have hlba := hlb a haA _ hmem'
              simp only [offEvent, evKey, evRank] at hlba
              omega
            · have hlba := hlb a' ha' _ (List.mem_cons_self _ _)
              simp only [evKey, evRank] at hlba
              omega
          have hooin : toOpenNote ch a ∈ opens :=
            hopens.mem_iff.mpr (List.mem_map_of_mem _ haA)
          have huniqO : ∀ o' ∈ opens, o'.channel = ch → o'.pitch = a.pitch →
              o' = toOpenNote ch a := by
            intro o' ho' hc' hp'
            obtain ⟨a', ha', rfl⟩ := List.mem_map.mp (hopens.subset ho')
            have : a' = a := huniqA a' ha' (by simpa [toOpenNote] using hp')
            rw [this]
          obtain ⟨opens', hcf, hperme⟩ := closeFirst_unique ch a.pitch a.end_time
            opens (toOpenNote ch a) hooin rfl rfl huniqO
          have hstep : pairNotes
              ((a.end_time, TrackEvent.offEvt ch a.pitch) :: tl) opens =
              (⟨ch, a.pitch, a.velocity, a.start_time, a.end_time⟩ : MidiNote) ::
                pairNotes tl opens' := by
            simp only [pairNotes]
            rw [hcf]
            rfl
          have hAperm : A.Perm (a :: A.erase a) := List.perm_cons_erase haA
          have hopens'' : opens'.Perm ((A.erase a).map (toOpenNote ch)) := by
            have h1 : (toOpenNote ch a :: (A.erase a).map (toOpenNote ch)).Perm opens := by
              have h2 : ((a :: A.erase a).map (toOpenNote ch)).Perm opens :=
                ((hAperm.symm).map _).trans hopens.symm
              simpa using h2
            exact hperme.trans (List.cons_perm_iff_perm_erase.mp h1).2.symm
          have hsub : (A.erase a ++ F).Sublist (A ++ F) :=
            (List.erase_sublist a A).append_right F
          have hKey : tl.Perm ((A.erase a).map (offEvent ch) ++
              F.flatMap (noteEvents ch)) := by
            have h1 : (A.map (offEvent ch) ++ F.flatMap (noteEvents ch)).Perm
                (offEvent ch a :: ((A.erase a).map (offEvent ch) ++
                  F.flatMap (noteEvents ch))) := by
              have h2 : (A.map (offEvent ch)).Perm
                  (offEvent ch a :: (A.erase a).map (offEvent ch)) := by
                have h5 := hAperm.map (offEvent ch)
                simpa using h5
              exact h2.append_right _
            exact (hperm.trans h1).cons_inv
          have happly := ih (A.erase a) F opens' hsort_tl hKey hopens''
            (fun n hn => hval n (hsub.subset hn))
            (hsep.sublist hsub)
            (fun a'' ha'' e' he' =>
              hlb a'' ((List.erase_sublist a A).subset ha'') e'
                (List.mem_cons_of_mem _ he'))
          rw [hstep]
          have hout : ((A ++ F).map (toMidiNote ch)).Perm
              (toMidiNote ch a :: (A.erase a ++ F).map (toMidiNote ch)) := by
            have h3 : (A ++ F).Perm (a :: (A.erase a ++ F)) := by
              have h4 := hAperm.append_right F
              simpa using h4
            exact h3.map _
          exact (happly.cons _).trans hout.symm

/-- The reader applied to an encoded file reduces to parsing the track body. -/
theorem parseMidi_encode (ns : NoteSequence) (p : InstrumentProfile) :
    parseMidi (encode ns p) =
      (parseEvents ((serializeTrackBody (toDeltaTrack 0 (sortedTrack ns p)) ++
          serializeEvent (0, TrackEvent.endEvt)).length + 1)
        (serializeTrackBody (toDeltaTrack 0 (sortedTrack ns p)) ++
          serializeEvent (0, TrackEvent.endEvt))).map
        (fun evs => pairNotes (absEvents 0 evs) []) := by
  simp [encode, midiHeader, division, parseMidi]

/-- C8 counterexample: `overlapSequence` holds two notes of the same pitch
whose intervals overlap; both satisfy the data-model invariants, yet the
standard reader recovers `overlapRecovered`, which is not a permutation of
the encoded notes — and no recovered note matches the original
(pitch 60, velocity 100, offset 960) note within one tick of its offset.  A
Standard MIDI track cannot express which note-off closes which of two open
same-pitch notes. -/
theorem same_pitch_overlap_not_recovered :
    (overlapSequence.notes.all (fun n =>
        decide (n.pitch ≤ 127) && decide (1 ≤ n.velocity) &&
        decide (n.velocity ≤ 127) && decide (n.start_time < n.end_time)) = true) ∧
    parseMidi (encode overlapSequence kickProfile) = some overlapRecovered ∧
    ¬ overlapRecovered.Perm
        (overlapSequence.notes.map (toMidiNote (kickProfile.channel % 16))) ∧
    (overlapRecovered.all (fun r =>
        !(decide (r.pitch = 60) && decide (r.velocity = 100) &&
          decide (r.end_time ≤ 961) && decide (959 ≤ r.end_time))) = true) := by
  decide

/-- C8 (amended): for every `NoteSequence` satisfying the data-model
invariants in which no two notes of the same pitch overlap in time, and every
profile, parsing the bytes produced by `encode` with the standard MIDI reader
recovers exactly the original notes (pitch, velocity, onset and offset all
exact, hence within one tick), as a multiset. -/
theorem midi_encode_roundtrip (ns : NoteSequence) (p : InstrumentProfile)
    (hvalid : ∀ n ∈ ns.notes, n.pitch ≤ 127 ∧ 1 ≤ n.velocity ∧
      n.velocity ≤ 127 ∧ n.start_time < n.end_time)
    (hsep : List.Pairwise pitchSeparated ns.notes) :
    ∃ rec, parseMidi (encode ns p) = some rec ∧
      rec.Perm (ns.notes.map (toMidiNote (p.channel % 16))) := by
  refine ⟨pairNotes (sortedTrack ns p) [], ?_, ?_⟩
  · have hok : ∀ e ∈ toDeltaTrack 0 (sortedTrack ns p),
        EvOk e.2 ∧ e.2 ≠ TrackEvent.endEvt := by
      intro e he
      have hsnd : e.2 ∈ (toDeltaTrack 0 (sortedTrack ns p)).map Prod.snd :=
        List.mem_map_of_mem _ he
      rw [toDeltaTrack_snd] at hsnd
      obtain ⟨ev, hev, heq⟩ := List.mem_map.mp hsnd
      rw [← heq]
      exact sortedTrack_events_ok ns p hvalid ev hev
    have hlen : (toDeltaTrack 0 (sortedTrack ns p)).length <
        (serializeTrackBody (toDeltaTrack 0 (sortedTrack ns p)) ++
          serializeEvent (0, TrackEvent.endEvt)).length + 1 := by
      have h1 := length_le_serializeTrackBody (toDeltaTrack 0 (sortedTrack ns p))
      simp only [List.length_append]
      omega
    have hpe := parseEvents_serializeTrackBody (toDeltaTrack 0 (sortedTrack ns p))
      _ hlen hok
    have habs : absEvents 0 (toDeltaTrack 0 (sortedTrack ns p)) = sortedTrack ns p :=
      absEvents_toDeltaTrack _ 0 (fun e _ => Nat.zero_le _)
        (sortedTrack_tick_mono ns p)
    rw [parseMidi_encode, hpe]
    simp only [Option.map_some']
    rw [habs]
  · have hskip : pairNotes (sortedTrack ns p) [] =
        pairNotes (List.insertionSort evLE
          (ns.notes.flatMap (noteEvents (p.channel % 16)))) [] := rfl
    rw [hskip]
    have hps := List.perm_insertionSort evLE
      (ns.notes.flatMap (noteEvents (p.channel % 16)))
    exact pairNotes_spec (p.channel % 16) _ [] ns.notes []
      (List.sorted_insertionSort evLE _)
      (by simpa using hps)
      (by simp)
      (fun n hn => (hvalid n (by simpa using hn)).2.2.2)
      (by simpa using hsep)
      (fun a ha => absurd ha (List.not_mem_nil a))

/-- Witness for the amended C8: two overlapping notes of distinct pitches
round-trip exactly. -/
theorem midi_encode_roundtrip_witness :
    ∃ rec, parseMidi (encode chordSequence kickProfile) = some rec ∧
      rec.Perm (chordSequence.notes.map (toMidiNote (kickProfile.channel % 16))) :=
  midi_encode_roundtrip chordSequence kickProfile (by decide) (by decide)

end MidiGen
